import Mathlib

/-!
Verification of the receipt-analyzer application (`app.py`).

The development shallowly embeds the two core components of the program:

* `parse_receipt_text` (app.py lines 74-129): OCR text → structured receipt,
  modelling Python's `re` searches for the concrete patterns the code uses
  (with their leftmost / greedy / lazy backtracking behaviour) as executable
  functions over `List Char`, and Python `float(...)` on the digit/comma/dot
  strings those patterns can produce as an `Option ℚ` parser.
* `answer_query` (app.py lines 179-299): the ordered intent chain over a
  relational model of the SQLite tables (`receipts`, `items`).  Statements the
  Python code would crash on (`IndexError` from `split()[0]` on an empty list,
  `TypeError` from formatting `None` with `:.2f`) are modelled with `Except`.
* The storage helpers `get_receipts`, `get_items_for_receipt`,
  `delete_receipt` (app.py lines 144-166).

Strings are `List Char`; Python whitespace is restricted to the ASCII
whitespace characters (the only ones relevant to this program's data).
Currency amounts (`REAL` columns, Python floats) are modelled as `ℚ`: the
program only parses, sums and formats these decimal amounts.
-/

set_option maxRecDepth 8000

namespace ReceiptAnalyzer

/-- Program strings, modelled as lists of characters. -/
abbrev Str := List Char

/-- Embed a Lean string literal into the model's string type. -/
def str (s : String) : Str := s.data

/-! ### Character classes and basic string operations -/

/-- ASCII decimal digit (`\d` for the ASCII inputs of this program). -/
def isDigitC (c : Char) : Bool := decide ('0' ≤ c) && decide (c ≤ '9')

/-- Python whitespace (`\s`, `str.strip`, `str.split()`), ASCII range. -/
def isPyWs (c : Char) : Bool :=
  c = ' ' || c = '\t' || c = '\n' || c = '\r' || c = '\x0b' || c = '\x0c'

/-- ASCII letter. -/
def isAlphaC (c : Char) : Bool :=
  (decide ('a' ≤ c) && decide (c ≤ 'z')) || (decide ('A' ≤ c) && decide (c ≤ 'Z'))

/-- ASCII lower-casing, as `str.lower()` acts on the ASCII range. -/
def toLowerC (c : Char) : Char :=
  if decide ('A' ≤ c) && decide (c ≤ 'Z') then Char.ofNat (c.toNat + 32) else c

/-- ASCII upper-casing. -/
def toUpperC (c : Char) : Char :=
  if decide ('a' ≤ c) && decide (c ≤ 'z') then Char.ofNat (c.toNat - 32) else c

/-- `str.lower()`. -/
def lowerS (cs : Str) : Str := cs.map toLowerC

/-- Numeric value of a digit string (most significant digit first). -/
def digitsVal (cs : Str) : Nat :=
  cs.foldl (fun a c => 10 * a + (c.toNat - 48)) 0

/-- Python `text.split(ch)` for a single-character separator: every occurrence
of `ch` separates two pieces; `"".split(ch) = [""]`. -/
def splitCh (ch : Char) : Str → List Str
  | [] => [[]]
  | c :: rest =>
    let r := splitCh ch rest
    if c = ch then [] :: r else (c :: r.headD []) :: r.tail

/-- Python `s.strip()`: drop whitespace from both ends. -/
def strip (cs : Str) : Str :=
  ((cs.dropWhile isPyWs).reverse.dropWhile isPyWs).reverse

/-- Join pieces with a newline separator (inverse direction of `splitCh '\n'`). -/
def joinNl : List Str → Str
  | [] => []
  | [l] => l
  | l :: m :: rest => l ++ '\n' :: joinNl (m :: rest)

/-- Python `pat in s` substring containment. -/
def containsSub (pat : Str) : Str → Bool
  | [] => pat.isEmpty
  | c :: r => pat.isPrefixOf (c :: r) || containsSub pat r

/-- Case-insensitive "pattern matches here" check, for `re.IGNORECASE`
patterns whose literal text is lower-case. -/
def ciStarts (pat cs : Str) : Bool := pat.isPrefixOf (lowerS cs)

/-- Leftmost search: try a matcher at every start position, left to right
(the semantics of `re.search`). -/
def searchO {α : Type} (f : Str → Option α) : Str → Option α
  | [] => f []
  | c :: r =>
    match f (c :: r) with
    | some x => some x
    | none => searchO f r

/-- Boolean leftmost search. -/
def searchB (p : Str → Bool) : Str → Bool
  | [] => p []
  | c :: r => p (c :: r) || searchB p r

/-! ### The regular expressions of `parse_receipt_text`

Each Python pattern is embedded as a matcher anchored at a start position; the
greedy / lazy quantifier semantics (with backtracking) are unfolded into the
explicit alternative order the Python engine would try. -/

/-- Alternation `(total|amount due|amount)` (case-insensitive) matches at this
position (app.py lines 81 and 101). -/
def kwAt (cs : Str) : Bool :=
  ciStarts (str "total") cs || ciStarts (str "amount due") cs || ciStarts (str "amount") cs

/-- `re.search(r'(total|amount due|amount)', l, re.IGNORECASE)` succeeds. -/
def kwSearch (cs : Str) : Bool := searchB kwAt cs

/-- Separator class (dash or slash) of the date pattern. -/
def sepOK (c : Char) : Bool := c = '-' || c = '/'

/-- Take exactly `n` digits from the front, if available. -/
def takeDigits (n : Nat) (cs : Str) : Option (Str × Str) :=
  let t := cs.take n
  if t.length = n && t.all isDigitC then some (t, cs.drop n) else none

/-- Final `\d{1,4}` of the date pattern, greedy. -/
def dateTail2 (cs : Str) : Option Str :=
  [4, 3, 2, 1].findSome? fun c => (takeDigits c cs).map (·.1)

/-- `sep \d{1,2} sep \d{1,4}` (sep a dash or slash) at this position, greedy
with backtracking. -/
def dateTail1 (cs : Str) : Option Str :=
  match cs with
  | s1 :: r2 =>
    if sepOK s1 then
      [2, 1].findSome? fun b =>
        match takeDigits b r2 with
        | some (d2, r3) =>
          match r3 with
          | s2 :: r4 =>
            if sepOK s2 then (dateTail2 r4).map fun d3 => s1 :: (d2 ++ s2 :: d3)
            else none
          | [] => none
        | none => none
    else none
  | [] => none

/-- The date pattern `\d{2,4} sep \d{1,2} sep \d{1,4}` (sep a dash or slash)
matching at this position, returning the matched substring (app.py lines 81
and 84-88). -/
def matchDateAt (cs : Str) : Option Str :=
  [4, 3, 2].findSome? fun a =>
    match takeDigits a cs with
    | some (d1, r1) => (dateTail1 r1).map fun tl => d1 ++ tl
    | none => none

/-- `re.search` of the date pattern: leftmost match. -/
def searchDate (cs : Str) : Option Str := searchO matchDateAt cs

/-- The date pattern occurs somewhere in the line. -/
def hasDate (cs : Str) : Bool := (searchDate cs).isSome

/-- Character class `[\d,.]` of the numeric runs in the total patterns. -/
def numChar (c : Char) : Bool := isDigitC c || c = ',' || c = '.'

/-- Suffix `\s*[:\-]?\s*\$?([\d,.]+)` of the total pattern.  All the optional
pieces are forced here: the characters accepted by a later piece are disjoint
from the ones an earlier piece could give back on backtracking. -/
def totalTail (cs : Str) : Option Str :=
  let c1 := cs.dropWhile isPyWs
  let c2 :=
    match c1 with
    | c :: r => if c = ':' || c = '-' then r.dropWhile isPyWs else c1
    | [] => c1
  let c3 :=
    match c2 with
    | c :: r => if c = '$' then r else c2
    | [] => c2
  let run := c3.takeWhile numChar
  if run.isEmpty then none else some run

/-- `(total|amount due|amount)\s*[:\-]?\s*\$?([\d,.]+)` matching at this
position (case-insensitive), returning group 2; alternatives are tried in the
pattern's order, falling back from `amount due` to `amount` (app.py line 90). -/
def matchTotalAt (cs : Str) : Option Str :=
  match (if ciStarts (str "total") cs then totalTail (cs.drop 5) else none) with
  | some g => some g
  | none =>
    match (if ciStarts (str "amount due") cs then totalTail (cs.drop 10) else none) with
    | some g => some g
    | none => if ciStarts (str "amount") cs then totalTail (cs.drop 6) else none

/-- `re.search` of the total pattern on a line, returning group 2. -/
def searchTotal (cs : Str) : Option Str := searchO matchTotalAt cs

/-- `re.search(r'\$([\d,.]+)', l)`: leftmost `$` followed by a nonempty
greedy run of `[\d,.]`, returning group 1 (app.py line 122). -/
def searchDollar (cs : Str) : Option Str :=
  searchO
    (fun s =>
      match s with
      | '$' :: r =>
        let run := r.takeWhile numChar
        if run.isEmpty then none else some run
      | _ => none)
    cs

/-- Character class `[A-Za-z0-9\s\-]` of the item-name group. -/
def isG1 (c : Char) : Bool := isAlphaC c || isDigitC c || isPyWs c || c = '-'

/-- Suffix `\s+\$?([\d]+\.[\d]{2})` of the price pattern at this position,
returning group 2.  The `\s+` and `\d+` runs are maximal: shorter choices put
a whitespace (resp. digit) where the next piece needs `$`/digit (resp. `.`). -/
def priceTailM (cs : Str) : Option Str :=
  match cs with
  | c :: _ =>
    if isPyWs c then
      let r1 := cs.dropWhile isPyWs
      let r2 :=
        match r1 with
        | d :: t => if d = '$' then t else r1
        | [] => r1
      let ds := r2.takeWhile isDigitC
      let rest := r2.drop ds.length
      if ds.isEmpty then none
      else
        match rest with
        | p :: d1 :: d2 :: _ =>
          if p = '.' && isDigitC d1 && isDigitC d2 then some (ds ++ p :: d1 :: d2 :: [])
          else none
        | _ => none
    else none
  | [] => none

/-- Lazy extension of the item-name group `([A-Za-z0-9\s\-]+?)`: try the price
tail after the shortest name first, then extend one character at a time. -/
def priceGo (name : Str) (rest : Str) : Option (Str × Str) :=
  match priceTailM rest with
  | some g2 => some (name, g2)
  | none =>
    match rest with
    | c :: r => if isG1 c then priceGo (name ++ [c]) r else none
    | [] => none

/-- `re.match(r'([A-Za-z0-9\s\-]+?)\s+\$?([\d]+\.[\d]{2})', l)`: anchored at
the line start, returning (group 1, group 2) (app.py lines 99-104). -/
def matchPriceAt : Str → Option (Str × Str)
  | [] => none
  | c :: r => if isG1 c then priceGo [c] r else none

/-- The exact rational value of a decimal numeral: `dec n k = n / 10^k`
(so `dec 550 2` is the amount `5.50`).  `mkRat` is used throughout the model
instead of the `ℚ` field operations so that every amount computes by kernel
reduction. -/
def dec (n : Int) (k : Nat) : ℚ := mkRat n (10 ^ k)

/-- Rational addition, written with `mkRat` so that it kernel-reduces;
`qadd_eq` below proves it is the addition of `ℚ`. -/
def qadd (a b : ℚ) : ℚ := mkRat (a.num * b.den + b.num * a.den) (a.den * b.den)

/-- Sum of a list of amounts (Python's `sum`, SQL's `SUM` over the matched
rows); `qsum_eq_sum` below proves it is `List.sum`. -/
def qsum (l : List ℚ) : ℚ := l.foldr qadd 0

/-- Python `float(...)` on the strings reachable from this program's regex
groups after comma-stripping: digits and at most one dot, at least one digit;
the value of `i.f` is `(i * 10^|f| + f) / 10^|f|`.  (Python's wider float
grammar — signs, exponents, padding — cannot occur here, since the groups
only capture digit, comma and dot characters.) -/
def parseFloat (cs : Str) : Option ℚ :=
  let parts := splitCh '.' cs
  if parts.all (fun p => p.all isDigitC) && cs.any isDigitC then
    match parts with
    | [i] => some (mkRat (digitsVal i) 1)
    | [i, f] => some (mkRat (digitsVal i * 10 ^ f.length + digitsVal f) (10 ^ f.length))
    | _ => none
  else none

/-- `datetime.strptime(l, '%Y-%m-%d')` succeeds (app.py line 115): exactly
`\d{4}-\d{1,2}-\d{1,2}` spanning the whole line with month in 1..12 and day in
1..31.  (The per-month day maxima and leap years of the real calendar check
are not modelled; no claim exercises this fallback.) -/
def strptimeYMD (cs : Str) : Bool :=
  match splitCh '-' cs with
  | [y, m, d] =>
    y.length = 4 && y.all isDigitC &&
    decide (1 ≤ m.length) && decide (m.length ≤ 2) && m.all isDigitC &&
    decide (1 ≤ digitsVal m) && decide (digitsVal m ≤ 12) &&
    decide (1 ≤ d.length) && decide (d.length ≤ 2) && d.all isDigitC &&
    decide (1 ≤ digitsVal d) && decide (digitsVal d ≤ 31)
  | _ => false

/-! ### `parse_receipt_text` (app.py lines 74-129) -/

/-- Line normalization (app.py line 75):
`[l.strip() for l in text.split('\n') if l.strip()]`. -/
def normLines (text : Str) : List Str :=
  ((splitCh '\n' text).map strip).filter fun l => !l.isEmpty

/-- Store heuristic (app.py lines 76-83): first line with neither a
date-shaped substring nor a total keyword; sentinel `"Unknown"`. -/
def extractStore (lines : List Str) : Str :=
  (lines.find? fun l => !hasDate l && !kwSearch l).getD (str "Unknown")

/-- Date extraction (app.py lines 84-89 and 112-119): first line with a
date-pattern match (the matched substring), else the strict `%Y-%m-%d`
fallback. -/
def extractDate (lines : List Str) : Option Str :=
  match lines.findSome? searchDate with
  | some d => some d
  | none => lines.find? strptimeYMD

/-- Keyword total pass (app.py lines 90-98): bottom-to-top, first line with a
total-pattern match; `some none` records a match whose numeric run failed to
parse (the `except: total = None` branch). -/
def totalKeywordPass (lines : List Str) : Option (Option ℚ) :=
  lines.reverse.findSome? fun l =>
    (searchTotal l).map fun g => parseFloat (g.filter fun c => c ≠ ',')

/-- Bare-`$` fallback pass (app.py lines 120-128): bottom-to-top, first line
with a `$<run>` match. -/
def dollarPass (lines : List Str) : Option (Option ℚ) :=
  lines.reverse.findSome? fun l =>
    (searchDollar l).map fun g => parseFloat (g.filter fun c => c ≠ ',')

/-- Python falsiness of the `total` variable: `None` and `0.0` are falsy. -/
def pyFalsyQ : Option ℚ → Bool
  | none => true
  | some t => t = 0

/-- Total extraction: the keyword pass, then — under `if not total:` — the
bare-`$` fallback, which leaves `total` unchanged when no line matches. -/
def extractTotal (lines : List Str) : Option ℚ :=
  let t1 := Option.join (totalKeywordPass lines)
  if pyFalsyQ t1 then
    match dollarPass lines with
    | some r => r
    | none => t1
  else t1

/-- Item extraction (app.py lines 99-111): lines without a total keyword,
matched from the start by the price pattern; the trimmed name must be
nonempty and the price must parse. -/
def extractItems (lines : List Str) : List (Str × ℚ) :=
  lines.filterMap fun l =>
    if kwSearch l then none
    else
      match matchPriceAt l with
      | some (g1, g2) =>
        let name := strip g1
        match parseFloat g2 with
        | some price => if name.isEmpty then none else some (name, price)
        | none => none
      | none => none

/-- The structured result of `parse_receipt_text` (store, date, total, items). -/
structure ParsedReceipt where
  store : Str
  date : Option Str
  total : Option ℚ
  items : List (Str × ℚ)
deriving DecidableEq

/-- `parse_receipt_text` (app.py lines 74-129).  The Python function catches
every numeric-parse failure internally, so the model is total. -/
def parse_receipt_text (text : Str) : ParsedReceipt :=
  let lines := normLines text
  { store := extractStore lines
    date := extractDate lines
    total := extractTotal lines
    items := extractItems lines }

/-! ### The database model (tables of app.py lines 31-46) -/

/-- A row of the `receipts` table.  `store` is always set by the parser;
`date` and `total` are nullable. -/
structure ReceiptRow where
  id : Nat
  user : Str
  store : Str
  date : Option Str
  total : Option ℚ
deriving DecidableEq

/-- A row of the `items` table.  The app only inserts items whose price
parsed, so `price` is non-null. -/
structure ItemRow where
  id : Nat
  user : Str
  receipt_id : Nat
  name : Str
  price : ℚ
deriving DecidableEq

/-- The database state: both tables in insertion (rowid) order. -/
structure DB where
  receipts : List ReceiptRow
  items : List ItemRow
deriving DecidableEq

/-- Byte-wise (here: code-point-wise) string comparison, as SQLite's memcmp
`TEXT` ordering on the ASCII data of this program. -/
def strLt : Str → Str → Bool
  | [], [] => false
  | [], _ :: _ => true
  | _ :: _, [] => false
  | a :: as, b :: bs =>
    if a.toNat = b.toNat then strLt as bs else decide (a.toNat < b.toNat)

/-- SQLite ordering on a nullable `TEXT` column: `NULL` sorts before any
text. -/
def dateLt : Option Str → Option Str → Bool
  | none, none => false
  | none, some _ => true
  | some _, none => false
  | some a, some b => strLt a b

/-- Insert into a date-descending list, keeping earlier rows first among
equal dates. -/
def insertDesc (r : ReceiptRow) : List ReceiptRow → List ReceiptRow
  | [] => [r]
  | b :: bs => if dateLt r.date b.date then b :: insertDesc r bs else r :: b :: bs

/-- `ORDER BY date DESC` over receipt rows. -/
def sortByDate : List ReceiptRow → List ReceiptRow
  | [] => []
  | r :: rs => insertDesc r (sortByDate rs)

/-- `get_receipts` (app.py lines 144-150): the owner's rows as
`(id, store, date, total)`, most-recent date first. -/
def get_receipts (db : DB) (user : Str) : List (Nat × Str × Option Str × Option ℚ) :=
  (sortByDate (db.receipts.filter fun r => r.user = user)).map fun r =>
    (r.id, r.store, r.date, r.total)

/-- `get_items_for_receipt` (app.py lines 152-158). -/
def get_items_for_receipt (db : DB) (user : Str) (rid : Nat) : List (Str × ℚ) :=
  (db.items.filter fun i => i.user = user && i.receipt_id = rid).map fun i =>
    (i.name, i.price)

/-- `delete_receipt` (app.py lines 160-166): delete the owner's item rows for
the receipt, then the receipt row itself. -/
def delete_receipt (db : DB) (user : Str) (rid : Nat) : DB :=
  { receipts := db.receipts.filter fun r => !(r.user = user && r.id = rid)
    items := db.items.filter fun i => !(i.user = user && i.receipt_id = rid) }

/-! ### `answer_query` (app.py lines 179-299) -/

/-- Python `s.split(sep)[...]` for a general nonempty separator needs
non-structural recursion; the fuel argument bounds the number of steps (one
piece of input is consumed per step, so `length` fuel is enough). -/
def pySplitGo (w : Str) : Nat → Str → List Str
  | _, [] => [[]]
  | 0, c :: rest => [c :: rest]
  | f + 1, c :: rest =>
    if w.isPrefixOf (c :: rest) && !w.isEmpty then
      [] :: pySplitGo w f (rest.drop (w.length - 1))
    else
      let r := pySplitGo w f rest
      (c :: r.headD []) :: r.tail

/-- Python `cs.split(w)` for a nonempty separator `w`: split at the leftmost
occurrences, scanning left to right. -/
def pySplit (w cs : Str) : List Str := pySplitGo w cs.length cs

/-- `cs.split(w)[-1]`: the text after the last (non-overlapping) occurrence
of `w`, or all of `cs` when `w` does not occur. -/
def pyLastPart (w cs : Str) : Str := (pySplit w cs).getLast?.getD []

/-- `.strip().split()[0]` of Python: the first whitespace-delimited token, or
`none` (an `IndexError` in Python) when there is none. -/
def firstToken (cs : Str) : Option Str :=
  let t := cs.dropWhile isPyWs
  if t.isEmpty then none else some (t.takeWhile fun c => !isPyWs c)

/-- `q.split(w)[-1].strip().split()[0]` — the fragment extraction of the
vendor/item branches (app.py lines 195, 230, 248). -/
def vendorToken (cs w : Str) : Option Str := firstToken (pyLastPart w cs)

/-- The trigger word the vendor branch actually uses: the loop
`for word in ['from', 'at']` processes `'from'` whenever it occurs in the
question, else `'at'` (app.py lines 193-195). -/
def triggerWord (q : Str) : Str :=
  if containsSub (str "from") q then str "from" else str "at"

/-- The number of cents of `x`, rounding half to even (the rounding of
`%.2f`/`:.2f` formatting), computed on the numerator/denominator so that it
kernel-reduces: with `n = 100 * num x` and `d = den x`, the floor of `n / d`
is bumped when the fractional part `(n - f*d)/d` exceeds one half. -/
def rhe100 (x : ℚ) : Int :=
  let n := x.num * 100
  let d := (x.den : Int)
  let f := Int.ediv n d
  let r2 := 2 * (n - f * d)
  if d < r2 then f + 1
  else if r2 < d then f
  else if f % 2 = 0 then f else f + 1

/-- Render a natural number below 100 with two digits. -/
def twoDigit (n : Nat) : Str :=
  if n < 10 then '0' :: Nat.toDigits 10 n else Nat.toDigits 10 n

/-- Python `f"{t:.2f}"` on the exact decimal amounts of this model. -/
def fmtMoney (t : ℚ) : Str :=
  let n := rhe100 t
  let a := n.natAbs
  (if n < 0 then ['-'] else []) ++ Nat.toDigits 10 (a / 100) ++ '.' :: twoDigit (a % 100)

/-- Python `str.title()` on the ASCII fragments of this program: a letter
following a non-letter is upper-cased, other letters lower-cased. -/
def pyTitleGo : Bool → Str → Str
  | _, [] => []
  | prev, c :: r =>
    if isAlphaC c then (if prev then toLowerC c else toUpperC c) :: pyTitleGo true r
    else c :: pyTitleGo false r

/-- Python `str.title()`. -/
def pyTitle (cs : Str) : Str := pyTitleGo false cs

/-- Python `f"{d}"` on a nullable text value: `None` renders as `"None"`. -/
def optStr (d : Option Str) : Str := d.getD (str "None")

/-- `sep.join(xs)`. -/
def joinSep (sep : Str) : List Str → Str
  | [] => []
  | [x] => x
  | x :: y :: rest => x ++ sep ++ joinSep sep (y :: rest)

/-- SQLite `LIKE '%needle%'`: ASCII case-insensitive containment. -/
def containsCI (needle hay : Str) : Bool := containsSub (lowerS needle) (lowerS hay)

/-- SQL `SUM(total)` over receipt rows: `NULL` totals are skipped, and the
sum of no non-`NULL` values is `NULL`. -/
def sqlSumTotals (rows : List ReceiptRow) : Option ℚ :=
  let vs := rows.filterMap ReceiptRow.total
  if vs.isEmpty then none else some (qsum vs)

/-- SQL `SUM` over a list of non-null amounts. -/
def sqlSumQ (vs : List ℚ) : Option ℚ :=
  if vs.isEmpty then none else some (qsum vs)

/-- The rows matched by `date LIKE 'YYYY-MM%'` for the owner (app.py
line 188); a `NULL` date never matches `LIKE`. -/
def monthRows (db : DB) (user : Str) (ym : Str) : List ReceiptRow :=
  db.receipts.filter fun r =>
    r.user = user &&
      (match r.date with
       | some d => ym.isPrefixOf d
       | none => false)

/-- Branch 1, monthly total (app.py lines 186-190).  `if total` treats both
`None` (no rows / all-`NULL`) and `0.0` as "no receipts". -/
def monthAnswer (db : DB) (user : Str) (ym : Str) : Str :=
  match sqlSumTotals (monthRows db user ym) with
  | some t =>
    if t = 0 then str "No receipts for this month."
    else str "Total spent this month: $" ++ fmtMoney t
  | none => str "No receipts for this month."

/-- Branch 2, vendor spend (app.py lines 196-211), after the fragment has
been extracted.  Formatting a `NULL` total with `:.2f` is the Python
`TypeError` (line 200). -/
def vendorAnswer (db : DB) (user : Str) (v : Str) : Except Str Str :=
  let rows := db.receipts.filter fun r => r.user = user && containsCI v r.store
  if rows.isEmpty then Except.ok (str "No receipts found for " ++ pyTitle v ++ str ".")
  else do
    let tot := qsum (rows.filterMap fun r =>
      match r.total with
      | some t => if t = 0 then none else some t
      | none => none)
    let rowLines ← rows.mapM fun r =>
      match r.total with
      | some t => Except.ok (optStr r.date ++ str ": $" ++ fmtMoney t)
      | none => Except.error (str "TypeError")
    let itemLines := rows.filterMap fun r =>
      let its := db.items.filter fun i => i.user = user && i.receipt_id = r.id
      if its.isEmpty then none
      else some (str "Items for " ++ optStr r.date ++ str ": " ++
        joinSep (str ", ") (its.map fun i => i.name ++ str " ($" ++ fmtMoney i.price ++ str ")"))
    Except.ok (str "Total spent at " ++ pyTitle v ++ str ": $" ++ fmtMoney tot ++ str "\n" ++
      joinSep (str "\n") rowLines ++
      (if itemLines.isEmpty then [] else str "\n" ++ joinSep (str "\n") itemLines))

/-- Branch 3, last receipt (app.py lines 216-227): the owner's row with the
maximal date (`ORDER BY date DESC LIMIT 1`), its items listed. -/
def lastReceiptAnswer (db : DB) (user : Str) : Str :=
  match (sortByDate (db.receipts.filter fun r => r.user = user)).head? with
  | none => str "No receipts found."
  | some row =>
    let its := (db.items.filter fun i => i.user = user && i.receipt_id = row.id).map fun i =>
      (i.name, i.price)
    if its.isEmpty then str "No items found for your last receipt."
    else
      str "Items from your last receipt (" ++ optStr row.date ++ str " - " ++ row.store ++
        str "):\n" ++
        joinSep (str "\n") (its.map fun i => i.1 ++ str ": $" ++ fmtMoney i.2)

/-- Branch 4, items at a vendor (app.py lines 229-245), after fragment
extraction. -/
def buyAtAnswer (db : DB) (user : Str) (v : Str) : Str :=
  let rows := sortByDate (db.receipts.filter fun r => r.user = user && containsCI v r.store)
  if rows.isEmpty then str "No receipts found for " ++ pyTitle v ++ str "."
  else
    let allItems := rows.flatMap fun r =>
      (db.items.filter fun i => i.user = user && i.receipt_id = r.id).map fun i =>
        i.name ++ str " ($" ++ fmtMoney i.price ++ str ") on " ++ optStr r.date
    if allItems.isEmpty then str "No items found for " ++ pyTitle v ++ str "."
    else str "Items bought at " ++ pyTitle v ++ str ":\n" ++ joinSep (str "\n") allItems

/-- Branch 5, spend on an item (app.py lines 247-251), after fragment
extraction. -/
def spendOnAnswer (db : DB) (user : Str) (it : Str) : Str :=
  let prices := (db.items.filter fun i => i.user = user && containsCI it i.name).map ItemRow.price
  match sqlSumQ prices with
  | some t =>
    if t = 0 then str "No purchases found for " ++ pyTitle it ++ str "."
    else str "Total spent on " ++ pyTitle it ++ str ": $" ++ fmtMoney t
  | none => str "No purchases found for " ++ pyTitle it ++ str "."

/-- Branch 6, list all items (app.py lines 253-265); items whose parent
receipt lookup misses are silently skipped. -/
def allItemsAnswer (db : DB) (user : Str) : Str :=
  let its := db.items.filter fun i => i.user = user
  if its.isEmpty then str "No items found."
  else
    let lines := its.filterMap fun i =>
      match (db.receipts.filter fun r => r.user = user && r.id = i.receipt_id).head? with
      | some r =>
        some (i.name ++ str ": $" ++ fmtMoney i.price ++ str " (" ++ optStr r.date ++
          str " - " ++ r.store ++ str ")")
      | none => none
    str "All items:\n" ++ joinSep (str "\n") lines

/-- The lowercase month names searched by the grocery branch. -/
def monthNames : List Str :=
  [str "january", str "february", str "march", str "april", str "may", str "june",
   str "july", str "august", str "september", str "october", str "november", str "december"]

/-- Month number (two digits) of a month name from `monthNames`. -/
def monthNumStr (m : Str) : Str := twoDigit ((monthNames.findIdx fun x => x = m) + 1)

/-- SQLite `strftime('%Y', date)` / `strftime('%m', date)` on a nullable text
date.  Modelled for the ISO `YYYY-MM-DD` dates this app stores; SQLite's
wider date grammar (and per-month day maxima) is not modelled — no claim
exercises this branch. -/
def isoMD (d : Option Str) : Option (Str × Str) :=
  match d with
  | some s =>
    match splitCh '-' s with
    | [y, m, dd] =>
      if y.length = 4 && y.all isDigitC && m.length = 2 && m.all isDigitC &&
          decide (1 ≤ digitsVal m) && decide (digitsVal m ≤ 12) &&
          dd.length = 2 && dd.all isDigitC &&
          decide (1 ≤ digitsVal dd) && decide (digitsVal dd ≤ 31) then
        some (y, m)
      else none
    | _ => none
  | none => none

/-- The current time, as the two formatted values `answer_query` reads from
`datetime.now()`: `strftime('%Y-%m')` and the year. -/
structure NowT where
  ym : Str
  year : Str

/-- A receipt row matches the grocery store filter. -/
def isGroceryStore (r : ReceiptRow) : Bool :=
  containsCI (str "groc") r.store || containsCI (str "supermarket") r.store ||
    containsCI (str "food") r.store

/-- Branch 7, grocery totals (app.py lines 267-282). -/
def groceryAnswer (db : DB) (user : Str) (now : NowT) (q : Str) : Str :=
  match monthNames.find? fun m => containsSub m q with
  | some m =>
    let mm := monthNumStr m
    let rows := db.receipts.filter fun r =>
      r.user = user && isGroceryStore r &&
        (match isoMD r.date with
         | some (y, mo) => mo = mm && y = now.year
         | none => false)
    match sqlSumTotals rows with
    | some t =>
      if t = 0 then str "No grocery receipts for " ++ pyTitle m ++ str "."
      else str "Total groceries in " ++ pyTitle m ++ str ": $" ++ fmtMoney t
    | none => str "No grocery receipts for " ++ pyTitle m ++ str "."
  | none =>
    match sqlSumTotals (db.receipts.filter fun r => r.user = user && isGroceryStore r) with
    | some t =>
      if t = 0 then str "No grocery receipts found."
      else str "Total groceries: $" ++ fmtMoney t
    | none => str "No grocery receipts found."

/-- Branch 8, grand total (app.py lines 284-287). -/
def grandTotalAnswer (db : DB) (user : Str) : Str :=
  match sqlSumTotals (db.receipts.filter fun r => r.user = user) with
  | some t => if t = 0 then str "No receipts found." else str "Total spent: $" ++ fmtMoney t
  | none => str "No receipts found."

/-- Branch 9, list receipts (app.py lines 289-295); a `NULL` total hits the
`:.2f` `TypeError`. -/
def listReceiptsAnswer (db : DB) (user : Str) : Except Str Str :=
  let rows := sortByDate (db.receipts.filter fun r => r.user = user)
  if rows.isEmpty then Except.ok (str "No receipts found.")
  else do
    let lines ← rows.mapM fun r =>
      match r.total with
      | some t => Except.ok (optStr r.date ++ str " - " ++ r.store ++ str ": $" ++ fmtMoney t)
      | none => Except.error (str "TypeError")
    Except.ok (joinSep (str "\n") lines)

/-- The fallback guidance message (branch 10). -/
def fallbackMsg : Str :=
  str "Sorry, I couldn" ++ [Char.ofNat 39] ++
    str "t understand your question. Try asking about totals, vendors, items, or months."

/-- `answer_query` (app.py lines 179-299): lowercase the question, then run
the ordered intent chain; `Except.error` models the uncaught Python
exceptions (`IndexError` on empty fragments, `TypeError` on `NULL` totals).
Inside the vendor branch the loop body for `'from'` runs whenever `'from'`
occurs in the question (with a `break`), so the interim
`"No matching vendor found."` assignment is always overwritten. -/
def answer_query (db : DB) (user : Str) (now : NowT) (query : Str) : Except Str Str :=
  let q := lowerS query
  if containsSub (str "this month") q || containsSub (str "current month") q then
    Except.ok (monthAnswer db user now.ym)
  else if containsSub (str "from") q || containsSub (str "at") q then
    match vendorToken q (triggerWord q) with
    | none => Except.error (str "IndexError")
    | some v => vendorAnswer db user v
  else if containsSub (str "last receipt") q || containsSub (str "latest receipt") q then
    Except.ok (lastReceiptAnswer db user)
  else if containsSub (str "what did i buy at") q then
    match vendorToken q (str "what did i buy at") with
    | none => Except.error (str "IndexError")
    | some v => Except.ok (buyAtAnswer db user v)
  else if containsSub (str "how much did i spend on") q then
    match vendorToken q (str "how much did i spend on") with
    | none => Except.error (str "IndexError")
    | some it => Except.ok (spendOnAnswer db user it)
  else if containsSub (str "list all items") q || containsSub (str "show all items") q then
    Except.ok (allItemsAnswer db user)
  else if containsSub (str "grocer") q || containsSub (str "supermarket") q ||
      containsSub (str "food") q then
    Except.ok (groceryAnswer db user now q)
  else if containsSub (str "total") q || containsSub (str "all") q ||
      containsSub (str "everything") q then
    Except.ok (grandTotalAnswer db user)
  else if containsSub (str "list") q || containsSub (str "show") q then
    listReceiptsAnswer db user
  else
    Except.ok fallbackMsg

instance : DecidableEq (Except Str Str) := fun a b =>
  match a, b with
  | Except.ok x, Except.ok y =>
    if h : x = y then isTrue (by rw [h])
    else isFalse fun hc => h (Except.ok.inj hc)
  | Except.error x, Except.error y =>
    if h : x = y then isTrue (by rw [h])
    else isFalse fun hc => h (Except.error.inj hc)
  | Except.ok _, Except.error _ => isFalse fun hc => Except.noConfusion hc
  | Except.error _, Except.ok _ => isFalse fun hc => Except.noConfusion hc

/-! ### Concrete data used by the example theorems and witnesses -/

/-- A fixed "current time" (October 2025) for the query examples. -/
def now0 : NowT := ⟨str "2025-10", str "2025"⟩

/-- The running example text of the specification. -/
def textC1 : Str := str "Corner Store\n2023-05-01\nMilk 3.50\nBread 2.00\nTotal: $5.50"

/-- The empty database. -/
def dbEmpty : DB := ⟨[], []⟩

/-- Two receipts from different vendors (for the vendor-fragment example). -/
def dbVendor : DB :=
  ⟨[⟨1, str "u", str "Aldi", some (str "2023-01-01"), some 10⟩,
    ⟨2, str "u", str "Costco", some (str "2023-02-01"), some 20⟩], []⟩

/-- One receipt with a known total (for the grand-total example). -/
def dbShow : DB := ⟨[⟨1, str "u", str "Shop", some (str "2025-01-01"), some (dec 1234 2)⟩], []⟩

/-- One in-month receipt whose total is `NULL` (for the monthly-total example). -/
def dbNullTotal : DB := ⟨[⟨1, str "u", str "Shop", some (str "2025-10-05"), none⟩], []⟩

/-- Two dated receipts, the later one with an item (for the last-receipt
example). -/
def dbLast : DB :=
  ⟨[⟨1, str "u", str "A", some (str "2023-01-02"), some 10⟩,
    ⟨2, str "u", str "B", some (str "2023-01-05"), some 5⟩],
   [⟨1, str "u", 2, str "Eggs", 3⟩]⟩

/-- Two receipts with one item each (for the deletion example). -/
def dbDel : DB :=
  ⟨[⟨1, str "u", str "A", some (str "2023-01-01"), some 5⟩,
    ⟨2, str "u", str "B", some (str "2023-02-02"), some 6⟩],
   [⟨1, str "u", 1, str "Milk", 2⟩, ⟨2, str "u", 2, str "Eggs", 3⟩]⟩

/-! ### General lemmas about the model's arithmetic -/

/-- The `mkRat`-based addition is the addition of `ℚ`. -/
theorem qadd_eq (a b : ℚ) : qadd a b = a + b := by
  rw [qadd, Rat.mkRat_eq_div]
  have ha : (a.den : ℚ) ≠ 0 := by exact_mod_cast a.den_nz
  have hb : (b.den : ℚ) ≠ 0 := by exact_mod_cast b.den_nz
  have h1 : a * (a.den : ℚ) = a.num := by
    nth_rewrite 1 [← Rat.num_div_den a]
    exact div_mul_cancel₀ _ ha
  have h2 : b * (b.den : ℚ) = b.num := by
    nth_rewrite 1 [← Rat.num_div_den b]
    exact div_mul_cancel₀ _ hb
  push_cast
  rw [div_eq_iff (by exact mul_ne_zero ha hb)]
  linear_combination (-(b.den : ℚ)) * h1 - (a.den : ℚ) * h2

/-- The model's list sum is `List.sum`. -/
theorem qsum_eq_sum (l : List ℚ) : qsum l = l.sum := by
  induction l with
  | nil => rfl
  | cons a t ih =>
    rw [qsum, List.foldr_cons, qadd_eq, List.sum_cons]
    rw [qsum] at ih
    rw [ih]

/-! ### C1 -/

/-- C1: on the text whose normalized lines are `["Corner Store",
"2023-05-01", "Milk 3.50", "Bread 2.00", "Total: $5.50"]`,
`parse_receipt_text` returns store `"Corner Store"`, date `"2023-05-01"`,
total `5.50`, and the items `[("Milk", 3.50), ("Bread", 2.00)]` in that
order. -/
theorem parse_corner_store_example :
    normLines textC1 =
      [str "Corner Store", str "2023-05-01", str "Milk 3.50", str "Bread 2.00",
        str "Total: $5.50"] ∧
    (parse_receipt_text textC1).store = str "Corner Store" ∧
    (parse_receipt_text textC1).date = some (str "2023-05-01") ∧
    (parse_receipt_text textC1).total = some (dec 550 2) ∧
    (parse_receipt_text textC1).items = [(str "Milk", dec 350 2), (str "Bread", dec 200 2)] := by
  decide

/-! ### C2 -/

/-- C2: on every input text, `parse_receipt_text` terminates (the model is a
total function) and returns a receipt whose store is non-empty: either the
first qualifying normalized line (normalized lines are never empty) or the
sentinel `"Unknown"`. -/
theorem parse_store_nonempty (text : Str) :
    (parse_receipt_text text).store.isEmpty = false := by
  have h1 : (parse_receipt_text text).store = extractStore (normLines text) := rfl
  rw [h1, extractStore]
  cases h : (normLines text).find? (fun l => !hasDate l && !kwSearch l) with
  | none => decide
  | some l =>
    have hm : l ∈ normLines text := List.mem_of_find?_eq_some h
    rw [normLines] at hm
    have h2 := (List.mem_filter.mp hm).2
    simpa using h2

/-- Witness for C2 at the empty input. -/
theorem parse_store_nonempty_witness :
    (parse_receipt_text (str "")).store.isEmpty = false :=
  parse_store_nonempty (str "")

/-! ### C3 -/

/-- C3 counterexample: on `"Shop\n$7.00\nTotal: 0.00"` the bottom-most
keyword line matches and its numeric run parses to `0.00`, yet the parsed
total is `7.00`: because of the falsy `if not total:` check, the bare-`$`
fallback runs and overrides the keyword match, contradicting the claim that
the fallback is never used when a keyword line matches. -/
theorem total_zero_falls_back_cex :
    totalKeywordPass (normLines (str "Shop\n$7.00\nTotal: 0.00")) = some (some (0 : ℚ)) ∧
    (parse_receipt_text (str "Shop\n$7.00\nTotal: 0.00")).total = some (7 : ℚ) := by
  decide

/-- C3 (amended): whenever some line matches the total-keyword pattern and
the bottom-most such match parses to a nonzero value, that value is the
parsed total and the bare-`$` fallback is not consulted.  (When the keyword
match parses to `0.0` or fails to parse, the falsy `if not total:` check
lets the bare-`$` fallback run.) -/
theorem keyword_total_nonzero_wins (text : Str) (v : ℚ)
    (h : totalKeywordPass (normLines text) = some (some v)) (hv : ¬v = 0) :
    (parse_receipt_text text).total = some v := by
  have h1 : (parse_receipt_text text).total = extractTotal (normLines text) := rfl
  rw [h1, extractTotal, h]
  simp [Option.join, pyFalsyQ, hv]

/-- Witness for C3 (amended) at a one-line receipt. -/
theorem keyword_total_nonzero_wins_witness :
    totalKeywordPass (normLines (str "Total: 5.50")) = some (some (dec 550 2)) ∧
    (parse_receipt_text (str "Total: 5.50")).total = some (dec 550 2) :=
  ⟨by decide, keyword_total_nonzero_wins (str "Total: 5.50") (dec 550 2) (by decide) (by decide)⟩

/-! ### C6 -/

/-- C6: any question containing "this month" (or "current month") — in
particular "How much did I spend this month?" — is answered by the monthly
branch; when the SQL sum over the owner's current-month rows is `NULL` (no
matching rows, or only `NULL` totals) or zero, the answer is exactly
"No receipts for this month." and no exception is raised; and a row with a
`NULL` total contributes nothing to that sum. -/
theorem monthly_zero_message (db : DB) (user : Str) (now : NowT) (query : Str)
    (h1 : (containsSub (str "this month") (lowerS query) ||
        containsSub (str "current month") (lowerS query)) = true)
    (h2 : sqlSumTotals (monthRows db user now.ym) = none ∨
        sqlSumTotals (monthRows db user now.ym) = some 0) :
    answer_query db user now query = Except.ok (str "No receipts for this month.") ∧
    ∀ (r : ReceiptRow) (rows : List ReceiptRow), r.total = none →
      sqlSumTotals (r :: rows) = sqlSumTotals rows := by
  constructor
  · rcases h2 with h2 | h2 <;> simp [answer_query, monthAnswer, h1, h2]
  · intro r rows hr
    rw [sqlSumTotals, sqlSumTotals, List.filterMap_cons, hr]

/-- Witness for C6: one in-month receipt whose total is `NULL`. -/
theorem monthly_zero_message_witness :
    answer_query dbNullTotal (str "u") now0 (str "How much did I spend this month?") =
      Except.ok (str "No receipts for this month.") :=
  (monthly_zero_message dbNullTotal (str "u") now0 (str "How much did I spend this month?")
    (by decide) (Or.inl (by decide))).1

/-! ### C7 -/

/-- C7: a question containing both the grand-total trigger "total" and a
list trigger ("list" or "show"), and none of the triggers of the earlier
intents, is answered by the grand-total branch (rule 8); the list branch
(rule 9) is never reached because the chain short-circuits at the first
matching predicate. -/
theorem total_priority_over_list (db : DB) (user : Str) (now : NowT) (query : Str)
    (ht : containsSub (str "total") (lowerS query) = true)
    (_hl : (containsSub (str "list") (lowerS query) ||
        containsSub (str "show") (lowerS query)) = true)
    (h1 : containsSub (str "this month") (lowerS query) = false)
    (h2 : containsSub (str "current month") (lowerS query) = false)
    (h3 : containsSub (str "from") (lowerS query) = false)
    (h4 : containsSub (str "at") (lowerS query) = false)
    (h5 : containsSub (str "last receipt") (lowerS query) = false)
    (h6 : containsSub (str "latest receipt") (lowerS query) = false)
    (h7 : containsSub (str "what did i buy at") (lowerS query) = false)
    (h8 : containsSub (str "how much did i spend on") (lowerS query) = false)
    (h9 : containsSub (str "list all items") (lowerS query) = false)
    (h10 : containsSub (str "show all items") (lowerS query) = false)
    (h11 : containsSub (str "grocer") (lowerS query) = false)
    (h12 : containsSub (str "supermarket") (lowerS query) = false)
    (h13 : containsSub (str "food") (lowerS query) = false) :
    answer_query db user now query = Except.ok (grandTotalAnswer db user) := by
  simp [answer_query, ht, h1, h2, h3, h4, h5, h6, h7, h8, h9, h10, h11, h12, h13]

/-- Witness for C7 at the question "show total". -/
theorem total_priority_over_list_witness :
    answer_query dbShow (str "u") now0 (str "show total") =
      Except.ok (grandTotalAnswer dbShow (str "u")) ∧
    grandTotalAnswer dbShow (str "u") = str "Total spent: $12.34" :=
  ⟨total_priority_over_list dbShow (str "u") now0 (str "show total") (by decide) (by decide)
      (by decide) (by decide) (by decide) (by decide) (by decide) (by decide) (by decide)
      (by decide) (by decide) (by decide) (by decide) (by decide) (by decide),
    by decide⟩

/-! ### C10 -/

/-- C10 counterexample: the question "this month at" lies in the set the
claim describes — it contains "at" (and not "from") and has no
non-whitespace character after the last occurrence of "at" — yet
`answer_query` does not raise: the "this month" branch runs first and
returns normally. -/
theorem vendor_trigger_month_cex :
    containsSub (str "at") (lowerS (str "this month at")) = true ∧
    containsSub (str "from") (lowerS (str "this month at")) = false ∧
    (pyLastPart (str "at") (lowerS (str "this month at"))).all isPyWs = true ∧
    answer_query dbEmpty (str "u") now0 (str "this month at") =
      Except.ok (str "No receipts for this month.") := by
  decide

/-- C10 (amended): when the lowercased question contains "from" or "at" but
neither "this month" nor "current month", and only whitespace follows the
last occurrence of the trigger word (`'from'` if present, else `'at'`), the
vendor branch's `split()[0]` raises `IndexError` instead of answering. -/
theorem empty_fragment_index_error (db : DB) (user : Str) (now : NowT) (query : Str)
    (h1 : containsSub (str "this month") (lowerS query) = false)
    (h2 : containsSub (str "current month") (lowerS query) = false)
    (h3 : (containsSub (str "from") (lowerS query) ||
        containsSub (str "at") (lowerS query)) = true)
    (h4 : (pyLastPart (triggerWord (lowerS query)) (lowerS query)).all isPyWs = true) :
    answer_query db user now query = Except.error (str "IndexError") := by
  have hv : vendorToken (lowerS query) (triggerWord (lowerS query)) = none := by
    rw [vendorToken, firstToken]
    have hd : (pyLastPart (triggerWord (lowerS query)) (lowerS query)).dropWhile isPyWs = [] :=
      List.dropWhile_eq_nil_iff.mpr (List.all_eq_true.mp h4)
    simp [hd]
  simp [answer_query, h1, h2, h3, hv]

/-- Witness for C10 (amended) at the question "at". -/
theorem empty_fragment_index_error_witness :
    answer_query dbEmpty (str "u") now0 (str "at") = Except.error (str "IndexError") :=
  empty_fragment_index_error dbEmpty (str "u") now0 (str "at")
    (by decide) (by decide) (by decide) (by decide)

/-! ### Ordering lemmas for `sortByDate` -/

/-- `strLt` is irreflexive. -/
theorem strLt_irrefl (a : Str) : strLt a a = false := by
  induction a with
  | nil => rfl
  | cons c cs ih => simp [strLt, ih]

/-- `strLt` is asymmetric. -/
theorem strLt_asymm {a b : Str} (h : strLt a b = true) : strLt b a = false := by
  induction a generalizing b with
  | nil =>
    cases b with
    | nil => simp [strLt] at h
    | cons d ds => rfl
  | cons c cs ih =>
    cases b with
    | nil => simp [strLt] at h
    | cons d ds =>
      rw [strLt] at h ⊢
      by_cases hc : c.toNat = d.toNat
      · rw [if_pos hc] at h
        rw [if_pos hc.symm]
        exact ih h
      · rw [if_neg hc] at h
        rw [if_neg fun e => hc e.symm]
        simp at h ⊢
        omega

/-- Negative transitivity of `strLt`: if neither `a < b` nor `b < c` then
not `a < c`. -/
theorem strLt_neg_trans {a b c : Str} (hab : strLt a b = false) (hbc : strLt b c = false) :
    strLt a c = false := by
  induction a generalizing b c with
  | nil =>
    cases c with
    | nil => rfl
    | cons e es =>
      cases b with
      | nil => exact absurd hbc (by simp [strLt])
      | cons f fs => exact absurd hab (by simp [strLt])
  | cons x xs ih =>
    cases b with
    | nil =>
      cases c with
      | nil => rfl
      | cons e es => exact absurd hbc (by simp [strLt])
    | cons y ys =>
      cases c with
      | nil => rfl
      | cons e es =>
        rw [strLt] at hab hbc ⊢
        by_cases h1 : x.toNat = y.toNat <;> by_cases h2 : y.toNat = e.toNat
        · rw [if_pos h1] at hab
          rw [if_pos h2] at hbc
          rw [if_pos (h1.trans h2)]
          exact ih hab hbc
        · rw [if_pos h1] at hab
          rw [if_neg h2] at hbc
          rw [if_neg (by rw [h1]; exact h2)]
          simp at hbc ⊢
          omega
        · rw [if_neg h1] at hab
          rw [if_pos h2] at hbc
          rw [if_neg (by rw [← h2]; exact h1)]
          simp at hab ⊢
          omega
        · rw [if_neg h1] at hab
          rw [if_neg h2] at hbc
          simp at hab hbc
          by_cases hne : x.toNat = e.toNat
          · exfalso
            omega
          · rw [if_neg hne]
            simp
            omega

/-- `dateLt` is irreflexive. -/
theorem dateLt_irrefl (d : Option Str) : dateLt d d = false := by
  cases d with
  | none => rfl
  | some s => simp [dateLt, strLt_irrefl]

/-- `dateLt` is asymmetric. -/
theorem dateLt_asymm {a b : Option Str} (h : dateLt a b = true) : dateLt b a = false := by
  cases a <;> cases b <;> simp [dateLt] at h ⊢
  exact strLt_asymm h

/-- Negative transitivity of `dateLt`. -/
theorem dateLt_neg_trans {a b c : Option Str} (h1 : dateLt a b = false)
    (h2 : dateLt b c = false) : dateLt a c = false := by
  cases a <;> cases b <;> cases c <;> simp [dateLt] at h1 h2 ⊢
  exact strLt_neg_trans h1 h2

/-- Inserting adds one element. -/
theorem length_insertDesc (r : ReceiptRow) (l : List ReceiptRow) :
    (insertDesc r l).length = l.length + 1 := by
  induction l with
  | nil => rfl
  | cons b bs ih =>
    rw [insertDesc]
    cases h : dateLt r.date b.date with
    | false => simp
    | true => simp [ih]

/-- Sorting preserves length. -/
theorem length_sortByDate (l : List ReceiptRow) : (sortByDate l).length = l.length := by
  induction l with
  | nil => rfl
  | cons r rs ih => rw [sortByDate, length_insertDesc, ih]; rfl

/-- Membership in an insertion. -/
theorem mem_insertDesc {r x : ReceiptRow} {l : List ReceiptRow} :
    x ∈ insertDesc r l ↔ x = r ∨ x ∈ l := by
  induction l with
  | nil => simp [insertDesc]
  | cons b bs ih =>
    rw [insertDesc]
    cases h : dateLt r.date b.date with
    | false => simp
    | true => simp [ih]; tauto

/-- Sorting preserves membership. -/
theorem mem_sortByDate {x : ReceiptRow} {l : List ReceiptRow} :
    x ∈ sortByDate l ↔ x ∈ l := by
  induction l with
  | nil => simp [sortByDate]
  | cons a as ih => rw [sortByDate, mem_insertDesc, ih]; simp

/-- The head of a sorted list has a maximal date: it is not `dateLt` any
element of the original list. -/
theorem sorted_head_max :
    ∀ (l : List ReceiptRow) (x : ReceiptRow), (sortByDate l).head? = some x →
      ∀ r ∈ l, dateLt x.date r.date = false := by
  intro l
  induction l with
  | nil => intro x hx; simp [sortByDate] at hx
  | cons a as ih =>
    intro x hx r hr
    rw [sortByDate] at hx
    cases hs : sortByDate as with
    | nil =>
      rw [hs] at hx
      obtain rfl : a = x := by simpa [insertDesc] using hx
      have has : as = [] := by
        have hlen := length_sortByDate as
        rw [hs] at hlen
        exact List.length_eq_zero.mp hlen.symm
      subst has
      rcases List.mem_cons.mp hr with rfl | hr
      · exact dateLt_irrefl _
      · simp at hr
    | cons b bs =>
      rw [hs] at hx
      rw [insertDesc] at hx
      cases hab : dateLt a.date b.date with
      | false =>
        rw [hab] at hx
        obtain rfl : a = x := by simpa using hx
        rcases List.mem_cons.mp hr with rfl | hr
        · exact dateLt_irrefl _
        · have hbr := ih b (by rw [hs]; rfl) r hr
          exact dateLt_neg_trans hab hbr
      | true =>
        rw [hab] at hx
        obtain rfl : b = x := by simpa using hx
        rcases List.mem_cons.mp hr with rfl | hr
        · exact dateLt_asymm hab
        · exact ih b (by rw [hs]; rfl) r hr

/-- The head of a list is a member. -/
theorem mem_of_head? {α : Type} {l : List α} {x : α} (h : l.head? = some x) : x ∈ l := by
  cases l with
  | nil => simp at h
  | cons a t =>
    simp at h
    subst h
    exact List.mem_cons_self a t

/-! ### C4 -/

/-- C4 counterexample: the question "latest receipt" contains the substring
"at" (inside "latest"), so the vendor branch answers it — filtering stores
by the fragment "est" — and not the last-receipt branch, whose answer on the
same (empty) database differs. -/
theorem latest_receipt_vendor_cex :
    containsSub (str "at") (lowerS (str "latest receipt")) = true ∧
    answer_query dbEmpty (str "u") now0 (str "latest receipt") =
      Except.ok (str "No receipts found for Est.") ∧
    lastReceiptAnswer dbEmpty (str "u") = str "No receipts found." := by
  decide

/-- C4 (amended): a question whose lowercased text contains "last receipt"
or "latest receipt" and contains none of "this month", "current month",
"from", "at" is answered by the last-receipt branch: the owner's
most-recent-by-date row (the sorted head is maximal among the owner's rows)
with its items listed, or the no-items / no-receipts message.  The question
"latest receipt" itself is not in this set — "latest" contains "at" — and is
instead captured by the vendor intent. -/
theorem last_receipt_branch (db : DB) (user : Str) (now : NowT) (query : Str)
    (h1 : containsSub (str "this month") (lowerS query) = false)
    (h2 : containsSub (str "current month") (lowerS query) = false)
    (h3 : containsSub (str "from") (lowerS query) = false)
    (h4 : containsSub (str "at") (lowerS query) = false)
    (h5 : (containsSub (str "last receipt") (lowerS query) ||
        containsSub (str "latest receipt") (lowerS query)) = true) :
    answer_query db user now query = Except.ok (lastReceiptAnswer db user) ∧
    ∀ x, (sortByDate (db.receipts.filter fun r => r.user = user)).head? = some x →
      x ∈ db.receipts ∧ x.user = user ∧
        ∀ r ∈ db.receipts, r.user = user → dateLt x.date r.date = false := by
  constructor
  · simp [answer_query, h1, h2, h3, h4, h5]
  · intro x hx
    have hxs : x ∈ sortByDate (db.receipts.filter fun r => r.user = user) := mem_of_head? hx
    have hxf : x ∈ db.receipts.filter fun r => r.user = user := mem_sortByDate.mp hxs
    have hxp := List.mem_filter.mp hxf
    refine ⟨hxp.1, by simpa using hxp.2, ?_⟩
    intro r hr hru
    exact sorted_head_max _ x hx r (List.mem_filter.mpr ⟨hr, by simpa using hru⟩)

/-- Witness for C4 (amended) at the question "last receipt". -/
theorem last_receipt_branch_witness :
    answer_query dbLast (str "u") now0 (str "last receipt") =
      Except.ok (lastReceiptAnswer dbLast (str "u")) ∧
    lastReceiptAnswer dbLast (str "u") =
      str "Items from your last receipt (2023-01-05 - B):\nEggs: $3.00" :=
  ⟨(last_receipt_branch dbLast (str "u") now0 (str "last receipt")
      (by decide) (by decide) (by decide) (by decide) (by decide)).1,
    by decide⟩

/-! ### Lemmas about `pySplit` -/

/-- `pySplitGo` never returns the empty list. -/
theorem pySplitGo_ne_nil (w : Str) : ∀ (f : Nat) (cs : Str), pySplitGo w f cs ≠ [] := by
  intro f
  induction f with
  | zero =>
    intro cs
    cases cs with
    | nil => simp [pySplitGo]
    | cons c rest => simp [pySplitGo]
  | succ f ih =>
    intro cs
    cases cs with
    | nil => simp [pySplitGo]
    | cons c rest =>
      simp only [pySplitGo]
      split
      · simp
      · simp

/-- `pySplit` never returns the empty list. -/
theorem pySplit_ne_nil (w cs : Str) : pySplit w cs ≠ [] := pySplitGo_ne_nil w cs.length cs

/-- Any sufficient fuel computes the same split. -/
theorem pySplitGo_fuel (w : Str) :
    ∀ (f g : Nat) (cs : Str), cs.length ≤ f → cs.length ≤ g →
      pySplitGo w f cs = pySplitGo w g cs := by
  intro f
  induction f with
  | zero =>
    intro g cs hf _
    have hcs : cs = [] := List.length_eq_zero.mp (Nat.le_zero.mp hf)
    subst hcs
    cases g <;> simp [pySplitGo]
  | succ f ih =>
    intro g cs hf hg
    cases cs with
    | nil => cases g <;> simp [pySplitGo]
    | cons c rest =>
      cases g with
      | zero => simp at hg
      | succ g' =>
        have hr : rest.length ≤ f := by simpa using hf
        have hr' : rest.length ≤ g' := by simpa using hg
        simp only [pySplitGo]
        by_cases hp : (w.isPrefixOf (c :: rest) && !w.isEmpty) = true
        · rw [if_pos hp, if_pos hp]
          have hw : 1 ≤ w.length := by
            cases w with
            | nil => simp at hp
            | cons _ _ => simp
          have hd : (rest.drop (w.length - 1)).length ≤ f := by
            rw [List.length_drop]; omega
          have hd' : (rest.drop (w.length - 1)).length ≤ g' := by
            rw [List.length_drop]; omega
          rw [ih g' _ hd hd']
        · rw [if_neg hp, if_neg hp]
          rw [ih g' rest hr hr']

/-- One-step unfolding of `pySplit` on a nonempty string. -/
theorem pySplit_cons (w : Str) (c : Char) (rest : Str) :
    pySplit w (c :: rest) =
      if w.isPrefixOf (c :: rest) && !w.isEmpty then
        [] :: pySplit w (rest.drop (w.length - 1))
      else
        (c :: (pySplit w rest).headD []) :: (pySplit w rest).tail := by
  show pySplitGo w (rest.length + 1) (c :: rest) = _
  simp only [pySplitGo]
  by_cases hp : (w.isPrefixOf (c :: rest) && !w.isEmpty) = true
  · rw [if_pos hp, if_pos hp]
    have h1 : (rest.drop (w.length - 1)).length ≤ rest.length := by
      rw [List.length_drop]; omega
    rw [pySplitGo_fuel w rest.length (rest.drop (w.length - 1)).length _ h1 (le_refl _)]
    rfl
  · rw [if_neg hp, if_neg hp]
    rfl

/-- With no occurrence of the separator, `split` returns the whole string. -/
theorem pySplit_no_occ (w : Str) (_hw : w.isEmpty = false) :
    ∀ cs, containsSub w cs = false → pySplit w cs = [cs] := by
  intro cs
  induction cs with
  | nil => intro _; rfl
  | cons c rest ih =>
    intro h
    rw [containsSub] at h
    obtain ⟨h1, h2⟩ : w.isPrefixOf (c :: rest) = false ∧ containsSub w rest = false := by
      simpa using h
    rw [pySplit_cons, ih h2]
    simp [h1]

/-- A string of the shape `x ++ w ++ y` contains `w`. -/
theorem containsSub_append_mid (w y : Str) (hw : w.isEmpty = false) :
    ∀ x : Str, containsSub w (x ++ w ++ y) = true := by
  intro x
  induction x with
  | nil =>
    cases w with
    | nil => simp at hw
    | cons d ds =>
      simp only [List.nil_append, List.cons_append]
      rw [containsSub]
      have hpre : (d :: ds).isPrefixOf (d :: (ds ++ y)) = true :=
        List.isPrefixOf_iff_prefix.mpr
          (by rw [← List.cons_append]; exact List.prefix_append (d :: ds) y)
      simp [hpre]
  | cons a x ih =>
    show containsSub w ((a :: x) ++ w ++ y) = true
    have hshape : (a :: x) ++ w ++ y = a :: (x ++ w ++ y) := by simp
    rw [hshape, containsSub, ih]
    simp

/-- With an occurrence of the separator, `split` has at least two pieces. -/
theorem pySplit_len2 (w : Str) (hw : w.isEmpty = false) :
    ∀ (n : Nat) (cs : Str), cs.length ≤ n → containsSub w cs = true →
      2 ≤ (pySplit w cs).length := by
  intro n
  induction n with
  | zero =>
    intro cs hl hc
    have hcs : cs = [] := List.length_eq_zero.mp (Nat.le_zero.mp hl)
    subst hcs
    rw [containsSub] at hc
    simp [hc] at hw
  | succ n ih =>
    intro cs hl hc
    cases cs with
    | nil =>
      rw [containsSub] at hc
      simp [hc] at hw
    | cons c rest =>
      rw [pySplit_cons]
      by_cases hp : (w.isPrefixOf (c :: rest) && !w.isEmpty) = true
      · rw [if_pos hp]
        have h1 : 1 ≤ (pySplit w (rest.drop (w.length - 1))).length :=
          List.length_pos.mpr (pySplit_ne_nil w _)
        simp
        omega
      · rw [if_neg hp]
        have h1 : w.isPrefixOf (c :: rest) = false := by
          cases hh : w.isPrefixOf (c :: rest)
          · rfl
          · exact absurd (by simp [hh, hw]) hp
        rw [containsSub, h1] at hc
        simp at hc
        have h2 := ih rest (by simpa using hl) hc
        cases hr : pySplit w rest with
        | nil => exact absurd hr (pySplit_ne_nil w rest)
        | cons p ps =>
          rw [hr] at h2
          simp at h2 ⊢
          omega

/-- The last piece of `split`: either the separator does not occur and the
last piece is the whole string, or the string is `pre ++ w ++ lastPiece` and
the separator does not occur in the last piece (it follows the last
occurrence of `w`). -/
theorem pySplit_last_spec (w : Str) (hw : w.isEmpty = false) :
    ∀ (n : Nat) (cs : Str), cs.length ≤ n →
      (containsSub w cs = false ∧ pyLastPart w cs = cs) ∨
      (∃ pre, cs = pre ++ w ++ pyLastPart w cs ∧
        containsSub w (pyLastPart w cs) = false) := by
  intro n
  induction n with
  | zero =>
    intro cs hl
    have hcs : cs = [] := List.length_eq_zero.mp (Nat.le_zero.mp hl)
    subst hcs
    exact Or.inl ⟨hw, rfl⟩
  | succ n ih =>
    intro cs hl
    cases cs with
    | nil => exact Or.inl ⟨hw, rfl⟩
    | cons c rest =>
      by_cases hp : w.isPrefixOf (c :: rest) = true
      · obtain ⟨t0, ht0⟩ := List.isPrefixOf_iff_prefix.mp hp
        have hw1 : 1 ≤ w.length := by
          cases w with
          | nil => simp at hw
          | cons _ _ => simp
        have hdrop : rest.drop (w.length - 1) = t0 := by
          have hd1 : (c :: rest).drop w.length = t0 := by
            rw [← ht0]; exact List.drop_left w t0
          obtain ⟨k, hk⟩ : ∃ k, w.length = k + 1 := ⟨w.length - 1, by omega⟩
          rw [hk, List.drop_succ_cons] at hd1
          rw [show w.length - 1 = k by omega]
          exact hd1
        have hcond : (w.isPrefixOf (c :: rest) && !w.isEmpty) = true := by simp [hp, hw]
        have hsplit : pySplit w (c :: rest) = [] :: pySplit w t0 := by
          rw [pySplit_cons, if_pos hcond, hdrop]
        have hlast : pyLastPart w (c :: rest) = pyLastPart w t0 := by
          rw [pyLastPart, hsplit]
          cases hpt : pySplit w t0 with
          | nil => exact absurd hpt (pySplit_ne_nil w t0)
          | cons p ps => rw [pyLastPart, hpt, List.getLast?_cons_cons]
        have ht0len : t0.length ≤ n := by
          have hlen : (c :: rest).length = w.length + t0.length := by
            rw [← ht0]; simp
          simp only [List.length_cons] at hlen hl
          omega
        rcases ih t0 ht0len with ⟨hc0, hl0⟩ | ⟨pre, hpre, hnc⟩
        · right
          refine ⟨[], ?_, ?_⟩
          · rw [hlast, hl0]
            simpa using ht0.symm
          · rw [hlast, hl0]; exact hc0
        · right
          refine ⟨w ++ pre, ?_, by rw [hlast]; exact hnc⟩
          rw [hlast]
          generalize hg : pyLastPart w t0 = lp at hpre ⊢
          rw [← ht0, hpre]
          simp [List.append_assoc]
      · have hp' : w.isPrefixOf (c :: rest) = false := by
          cases hh : w.isPrefixOf (c :: rest)
          · rfl
          · exact absurd hh hp
        have hsplit : pySplit w (c :: rest) =
            (c :: (pySplit w rest).headD []) :: (pySplit w rest).tail := by
          rw [pySplit_cons, if_neg (by simp [hp'])]
        have hcont : containsSub w (c :: rest) = containsSub w rest := by
          rw [containsSub, hp']
          simp
        rcases ih rest (by simpa using hl) with ⟨hc0, _⟩ | ⟨pre, hpre, hnc⟩
        · left
          have hr : pySplit w rest = [rest] := pySplit_no_occ w hw rest hc0
          refine ⟨by rw [hcont]; exact hc0, ?_⟩
          rw [pyLastPart, hsplit, hr]
          rfl
        · right
          have hcr : containsSub w rest = true := by
            generalize hg : pyLastPart w rest = lp at hpre
            rw [hpre]
            exact containsSub_append_mid w lp hw pre
          have h2 := pySplit_len2 w hw rest.length rest (le_refl _) hcr
          cases hr : pySplit w rest with
          | nil => exact absurd hr (pySplit_ne_nil w rest)
          | cons p ps =>
            cases ps with
            | nil =>
              rw [hr] at h2
              simp at h2
            | cons q qs =>
              have hlast : pyLastPart w (c :: rest) = pyLastPart w rest := by
                rw [pyLastPart, hsplit, hr, pyLastPart, hr]
                simp [List.getLast?_cons_cons]
              refine ⟨c :: pre, ?_, by rw [hlast]; exact hnc⟩
              rw [hlast]
              generalize hg : pyLastPart w rest = lp at hpre ⊢
              rw [hpre]
              simp [List.append_assoc]

/-! ### C5 -/

/-- C5 counterexample: for the question "receipts from aldi from costco" the
vendor fragment is the token after the `last` occurrence of "from" —
`"costco"`, not `"aldi"` — so with both an Aldi and a Costco receipt stored,
the answer is about Costco. -/
theorem vendor_fragment_cex :
    triggerWord (lowerS (str "receipts from aldi from costco")) = str "from" ∧
    vendorToken (lowerS (str "receipts from aldi from costco")) (str "from") =
      some (str "costco") ∧
    answer_query dbVendor (str "u") now0 (str "receipts from aldi from costco") =
      Except.ok (str "Total spent at Costco: $20.00\n2023-02-01: $20.00") := by
  decide

/-- C5 (amended): when the vendor intent fires (the lowercased question
contains "from" or "at" and no monthly trigger) and fragment extraction
succeeds, the fragment used as the store filter is the first
whitespace-delimited token following the LAST occurrence of the trigger word
(`q.split(word)[-1]` takes the text after the last occurrence): the question
decomposes as `pre ++ word ++ tail` with no further occurrence of the word
in `tail`, and the fragment is the first token of `tail`. -/
theorem vendor_fragment_last_occ (db : DB) (user : Str) (now : NowT) (query : Str) (v : Str)
    (h1 : containsSub (str "this month") (lowerS query) = false)
    (h2 : containsSub (str "current month") (lowerS query) = false)
    (h3 : (containsSub (str "from") (lowerS query) ||
        containsSub (str "at") (lowerS query)) = true)
    (hv : vendorToken (lowerS query) (triggerWord (lowerS query)) = some v) :
    answer_query db user now query = vendorAnswer db user v ∧
    ∃ pre,
      lowerS query = pre ++ triggerWord (lowerS query) ++
        pyLastPart (triggerWord (lowerS query)) (lowerS query) ∧
      containsSub (triggerWord (lowerS query))
        (pyLastPart (triggerWord (lowerS query)) (lowerS query)) = false ∧
      firstToken (pyLastPart (triggerWord (lowerS query)) (lowerS query)) = some v := by
  constructor
  · simp [answer_query, h1, h2, h3, hv]
  · have hw : (triggerWord (lowerS query)).isEmpty = false := by
      rw [triggerWord]
      split <;> rfl
    have hcont : containsSub (triggerWord (lowerS query)) (lowerS query) = true := by
      rw [triggerWord]
      by_cases hf : containsSub (str "from") (lowerS query) = true
      · rw [if_pos hf]; exact hf
      · rw [if_neg hf]
        have h3' : containsSub (str "from") (lowerS query) = true ∨
            containsSub (str "at") (lowerS query) = true := by simpa using h3
        rcases h3' with h | h
        · exact absurd h hf
        · exact h
    rcases pySplit_last_spec (triggerWord (lowerS query)) hw (lowerS query).length
        (lowerS query) (le_refl _) with ⟨hc, _⟩ | ⟨pre, hpre, hnc⟩
    · rw [hc] at hcont; cases hcont
    · exact ⟨pre, hpre, hnc, hv⟩

/-- Witness for C5 (amended) at the question "spent from aldi". -/
theorem vendor_fragment_last_occ_witness :
    answer_query dbVendor (str "u") now0 (str "spent from aldi") =
      vendorAnswer dbVendor (str "u") (str "aldi") :=
  (vendor_fragment_last_occ dbVendor (str "u") now0 (str "spent from aldi") (str "aldi")
    (by decide) (by decide) (by decide) (by decide)).1

/-! ### Lemmas about `strip`, `splitCh` and `joinNl` -/

/-- `dropWhile` is idempotent. -/
theorem dropWhile_idem (p : Char → Bool) (l : Str) :
    (l.dropWhile p).dropWhile p = l.dropWhile p := by
  induction l with
  | nil => rfl
  | cons c cs ih =>
    rw [List.dropWhile_cons]
    by_cases h : p c = true
    · rw [if_pos h]; exact ih
    · rw [if_neg h, List.dropWhile_cons, if_neg h]

/-- A prefix of a left-trimmed string is left-trimmed. -/
theorem prefix_dropWhile_eq {p : Char → Bool} {u v : Str} (hu : u.dropWhile p = u)
    (hv : v <+: u) : v.dropWhile p = v := by
  cases v with
  | nil => rfl
  | cons c t =>
    cases hpc : p c with
    | false => rw [List.dropWhile_cons, if_neg (by simp [hpc])]
    | true =>
      exfalso
      obtain ⟨s, hs⟩ := hv
      have hu' : u = c :: (t ++ s) := by rw [← hs]; rfl
      have h1 : u.dropWhile p = (t ++ s).dropWhile p := by
        rw [hu', List.dropWhile_cons, if_pos (by simp [hpc])]
      have h2 : ((t ++ s).dropWhile p).length ≤ (t ++ s).length :=
        (List.dropWhile_suffix p).length_le
      rw [hu] at h1
      have h3 : u.length = ((t ++ s).dropWhile p).length := congrArg List.length h1
      rw [hu'] at h3
      simp only [List.length_cons, List.length_append] at h3
      simp only [List.length_append] at h2
      omega

/-- Right-trimming yields an initial segment of the string. -/
theorem trimRPre (x : Str) : ((x.reverse.dropWhile isPyWs).reverse) <+: x := by
  obtain ⟨t, ht⟩ := @List.dropWhile_suffix Char x.reverse isPyWs
  exact ⟨t.reverse, by rw [← List.reverse_append, ht, List.reverse_reverse]⟩

/-- `strip` is idempotent. -/
theorem strip_idem (cs : Str) : strip (strip cs) = strip cs := by
  simp only [strip]
  set y := cs.dropWhile isPyWs with hy
  set z := (y.reverse.dropWhile isPyWs).reverse with hz
  have hyL : y.dropWhile isPyWs = y := dropWhile_idem isPyWs cs
  have hzy : z <+: y := trimRPre y
  have hzL : z.dropWhile isPyWs = z := prefix_dropWhile_eq hyL hzy
  rw [hzL]
  have hzr : z.reverse = y.reverse.dropWhile isPyWs := by rw [hz, List.reverse_reverse]
  rw [hzr, dropWhile_idem isPyWs, ← hzr, List.reverse_reverse]

/-- `strip` returns a sublist (so a subset) of its input. -/
theorem strip_sublist (cs : Str) : (strip cs).Sublist cs := by
  simp only [strip]
  exact (trimRPre (cs.dropWhile isPyWs)).sublist.trans
    (List.dropWhile_suffix isPyWs).sublist

/-- One-step unfolding of `splitCh` on a nonempty string. -/
theorem splitCh_cons (ch c : Char) (rest : Str) :
    splitCh ch (c :: rest) =
      if c = ch then [] :: splitCh ch rest
      else (c :: (splitCh ch rest).headD []) :: (splitCh ch rest).tail := by
  simp only [splitCh]

/-- `splitCh` never returns the empty list. -/
theorem splitCh_ne_nil (ch : Char) (cs : Str) : splitCh ch cs ≠ [] := by
  cases cs with
  | nil => simp [splitCh]
  | cons c rest =>
    rw [splitCh_cons]
    split <;> simp

/-- No piece of a split contains the separator. -/
theorem mem_splitCh_no (ch : Char) : ∀ (cs p : Str), p ∈ splitCh ch cs → ch ∉ p := by
  intro cs
  induction cs with
  | nil =>
    intro p hp
    simp [splitCh] at hp
    subst hp
    simp
  | cons c rest ih =>
    intro p hp
    simp only [splitCh] at hp
    cases hsp : splitCh ch rest with
    | nil => exact absurd hsp (splitCh_ne_nil ch rest)
    | cons p0 ps =>
      rw [hsp] at hp
      by_cases hc : c = ch
      · rw [if_pos hc] at hp
        rcases List.mem_cons.mp hp with rfl | hp2
        · simp
        · exact ih p (by rw [hsp]; exact hp2)
      · rw [if_neg hc] at hp
        simp only [List.headD_cons, List.tail_cons] at hp
        rcases List.mem_cons.mp hp with rfl | hp2
        · intro hmem
          rcases List.mem_cons.mp hmem with hcc | hmem2
          · exact hc hcc.symm
          · exact ih p0 (by rw [hsp]; exact List.mem_cons_self _ _) hmem2
        · exact ih p (by rw [hsp]; exact List.mem_cons_of_mem _ hp2)

/-- Splitting a string without the separator gives one piece. -/
theorem splitCh_no_ch (ch : Char) : ∀ cs : Str, ch ∉ cs → splitCh ch cs = [cs] := by
  intro cs
  induction cs with
  | nil => intro _; rfl
  | cons c rest ih =>
    intro h
    have hc : ¬c = ch := by
      intro e
      subst e
      exact h (List.mem_cons_self _ _)
    have h2 : ch ∉ rest := fun m => h (List.mem_cons_of_mem _ m)
    simp only [splitCh, ih h2]
    rw [if_neg hc]
    simp

/-- Splitting after a separator-free piece peels it off. -/
theorem splitCh_append_cons (ch : Char) (t : Str) :
    ∀ p : Str, ch ∉ p → splitCh ch (p ++ ch :: t) = p :: splitCh ch t := by
  intro p
  induction p with
  | nil =>
    intro _
    rw [List.nil_append, splitCh_cons, if_pos rfl]
  | cons c cs ih =>
    intro h
    have hc : ¬c = ch := by
      intro e
      subst e
      exact h (List.mem_cons_self _ _)
    have h2 : ch ∉ cs := fun m => h (List.mem_cons_of_mem _ m)
    rw [List.cons_append, splitCh_cons, ih h2, if_neg hc]
    simp

/-- Splitting the newline-join of nonempty newline-free pieces recovers the
pieces. -/
theorem splitCh_joinNl : ∀ ps : List Str, ps ≠ [] → (∀ p ∈ ps, ('\n' : Char) ∉ p) →
    splitCh '\n' (joinNl ps) = ps := by
  intro ps
  induction ps with
  | nil => intro h _; exact absurd rfl h
  | cons p qs ih =>
    intro _ hh
    cases qs with
    | nil =>
      simp only [joinNl]
      exact splitCh_no_ch '\n' p (hh p (List.mem_cons_self _ _))
    | cons q rs =>
      rw [joinNl]
      rw [splitCh_append_cons '\n' (joinNl (q :: rs)) p (hh p (List.mem_cons_self _ _))]
      rw [ih (by simp) fun x hx => hh x (List.mem_cons_of_mem _ hx)]

/-! ### C8 -/

/-- C8: the line normalizer produces only non-empty, trimmed lines; it keeps
them in input order (it is a sublist of the trimmed split pieces); and it is
idempotent: normalizing the newline-join of its own output returns that
output unchanged. -/
theorem normalize_lines_spec (text : Str) :
    (∀ l ∈ normLines text, l.isEmpty = false ∧ strip l = l) ∧
    (normLines text).Sublist ((splitCh '\n' text).map strip) ∧
    normLines (joinNl (normLines text)) = normLines text := by
  have hmem : ∀ l ∈ normLines text, l.isEmpty = false ∧ strip l = l := by
    intro l hl
    rw [normLines] at hl
    have h2 := List.mem_filter.mp hl
    refine ⟨by simpa using h2.2, ?_⟩
    obtain ⟨p, _, rfl⟩ := List.mem_map.mp h2.1
    exact strip_idem p
  refine ⟨hmem, ?_, ?_⟩
  · rw [normLines]
    exact List.filter_sublist _
  · have hnl : ∀ l ∈ normLines text, ('\n' : Char) ∉ l := by
      intro l hl
      rw [normLines] at hl
      obtain ⟨p, hp, rfl⟩ := List.mem_map.mp (List.mem_filter.mp hl).1
      intro hmem2
      exact mem_splitCh_no '\n' text p hp ((strip_sublist p).subset hmem2)
    cases hps : normLines text with
    | nil => decide
    | cons p qs =>
      rw [hps] at hmem hnl
      have hsp : splitCh '\n' (joinNl (p :: qs)) = p :: qs :=
        splitCh_joinNl (p :: qs) (by simp) hnl
      rw [normLines, hsp]
      have hmap : (p :: qs).map strip = p :: qs := by
        rw [List.map_congr_left fun a ha => (hmem a ha).2]
        simp
      rw [hmap]
      exact List.filter_eq_self.mpr fun a ha => by simpa using (hmem a ha).1

/-- Witness for C8 at a small messy input. -/
theorem normalize_lines_spec_witness :
    normLines (joinNl (normLines (str "  a \n\n b "))) = normLines (str "  a \n\n b ") :=
  (normalize_lines_spec (str "  a \n\n b ")).2.2

/-! ### C9 -/

/-- C9: `delete_receipt` removes the owner's receipt row and every item row
attached to it — afterwards `get_items_for_receipt` for that id is empty and
`get_receipts` no longer lists the id — while receipts and items with other
ids or other owner keys are untouched (both as membership of the raw rows
and as the results of the query helpers). -/
theorem delete_receipt_frame (db : DB) (u : Str) (rid : Nat) :
    get_items_for_receipt (delete_receipt db u rid) u rid = [] ∧
    (∀ row ∈ get_receipts (delete_receipt db u rid) u, ¬row.1 = rid) ∧
    (∀ r ∈ db.receipts, (¬r.id = rid ∨ ¬r.user = u) →
      r ∈ (delete_receipt db u rid).receipts) ∧
    (∀ i ∈ db.items, (¬i.receipt_id = rid ∨ ¬i.user = u) →
      i ∈ (delete_receipt db u rid).items) ∧
    (∀ u', ¬u' = u → get_receipts (delete_receipt db u rid) u' = get_receipts db u') ∧
    (∀ u', ¬u' = u → ∀ rid', get_items_for_receipt (delete_receipt db u rid) u' rid' =
      get_items_for_receipt db u' rid') ∧
    (∀ rid', ¬rid' = rid → get_items_for_receipt (delete_receipt db u rid) u rid' =
      get_items_for_receipt db u rid') := by
  refine ⟨?_, ?_, ?_, ?_, ?_, ?_, ?_⟩
  · simp only [get_items_for_receipt, delete_receipt]
    rw [List.filter_filter]
    have hnil : db.items.filter
        (fun i => (decide (i.user = u) && decide (i.receipt_id = rid)) &&
          !(decide (i.user = u) && decide (i.receipt_id = rid))) = [] :=
      List.filter_eq_nil_iff.mpr fun i _ => by rw [Bool.and_not_self]; simp
    rw [hnil]
    rfl
  · intro row hrow
    simp only [get_receipts] at hrow
    obtain ⟨r, hr, rfl⟩ := List.mem_map.mp hrow
    have hr2 := mem_sortByDate.mp hr
    have hr3 := List.mem_filter.mp hr2
    have hr4 : r ∈ db.receipts ∧ (¬r.user = u ∨ ¬r.id = rid) := by
      simpa [delete_receipt] using hr3.1
    have hru : r.user = u := by simpa using hr3.2
    intro hid
    have hid' : r.id = rid := by simpa using hid
    rcases hr4.2 with h | h
    · exact h hru
    · exact h hid'
  · intro r hr hcond
    simp only [delete_receipt]
    refine List.mem_filter.mpr ⟨hr, ?_⟩
    rcases hcond with h | h <;> simp [h]
  · intro i hi hcond
    simp only [delete_receipt]
    refine List.mem_filter.mpr ⟨hi, ?_⟩
    rcases hcond with h | h <;> simp [h]
  · intro u' hu'
    have hfil : (db.receipts.filter fun r => !(r.user = u && r.id = rid)).filter
        (fun r => r.user = u') = db.receipts.filter fun r => r.user = u' := by
      rw [List.filter_filter]
      apply List.filter_congr
      intro x _
      by_cases hx : x.user = u'
      · simp [hx, hu']
      · simp [hx]
    simp only [get_receipts, delete_receipt]
    rw [hfil]
  · intro u' hu' rid'
    have hfil : (db.items.filter fun i => !(i.user = u && i.receipt_id = rid)).filter
        (fun i => i.user = u' && i.receipt_id = rid') =
        db.items.filter fun i => i.user = u' && i.receipt_id = rid' := by
      rw [List.filter_filter]
      apply List.filter_congr
      intro x _
      by_cases hx : x.user = u'
      · simp [hx, hu']
      · simp [hx]
    simp only [get_items_for_receipt, delete_receipt]
    rw [hfil]
  · intro rid' hrid'
    have hfil : (db.items.filter fun i => !(i.user = u && i.receipt_id = rid)).filter
        (fun i => i.user = u && i.receipt_id = rid') =
        db.items.filter fun i => i.user = u && i.receipt_id = rid' := by
      rw [List.filter_filter]
      apply List.filter_congr
      intro x _
      by_cases hx : x.receipt_id = rid'
      · simp [hx, hrid']
      · simp [hx]
    simp only [get_items_for_receipt, delete_receipt]
    rw [hfil]

/-- Witness for C9: deleting receipt 1 of a concrete database empties its
item list and leaves receipt 2's items unchanged. -/
theorem delete_receipt_frame_witness :
    get_items_for_receipt (delete_receipt dbDel (str "u") 1) (str "u") 1 = [] ∧
    get_items_for_receipt (delete_receipt dbDel (str "u") 1) (str "u") 2 =
      get_items_for_receipt dbDel (str "u") 2 :=
  ⟨(delete_receipt_frame dbDel (str "u") 1).1,
    (delete_receipt_frame dbDel (str "u") 1).2.2.2.2.2.2 2 (by decide)⟩

end ReceiptAnalyzer
